import Mathlib

/-!
Verification of the CIL function algebra
(src/Wrappers/Python/cil/optimisation/functions/Function.py).

Vectors (the opaque array container) are modelled as total maps from an
index type to the rationals, so that the elementwise arithmetic of the
container is exact. Function nodes are modelled by an inductive tree
mirroring the classes Function (leaf), ConstantFunction, SumFunction,
SumScalarFunction, ScaledFunction and TranslateFunction. Operations that
may transiently mutate the caller-owned vector x (divide-and-restore,
subtract-and-restore) are modelled by returning the pair
(state of x after the call, returned value); the choice between the
in-place path (container supports out-parameters) and the allocating path
(container raises TypeError on the out keyword) is a single boolean `ip`
because it is a property of the container type, uniform over the tree.
Leaf proximal operators are user supplied and are modelled as pure
functions of (x, tau) that do not mutate x, which is the contract the
library assumes of external leaves.
-/

namespace CIL

/-- Vectors: exact model of the elementwise numeric container. -/
abbrev Vec := ℕ → ℚ

/-- Elementwise x.add(y). -/
def Vec.add (x y : Vec) : Vec := fun i => x i + y i

/-- Elementwise x.subtract(y). -/
def Vec.sub (x y : Vec) : Vec := fun i => x i - y i

/-- Scalar x.multiply(c). -/
def Vec.mul (x : Vec) (c : ℚ) : Vec := fun i => x i * c

/-- Scalar x.divide(c). -/
def Vec.div (x : Vec) (c : ℚ) : Vec := fun i => x i / c

/-- Function nodes of the algebra. `leaf` stands for an externally defined
concrete Function with user supplied evaluation `ev` and proximal `pr`;
`constant` is ConstantFunction (ZeroFunction is `constant 0`); `sumF` is
SumFunction with its tuple of children; `sumScalar` is
SumScalarFunction(function, constant), whose children tuple is
(function, ConstantFunction constant); `scaled` is
ScaledFunction(function, scalar); `translate` is
TranslateFunction(function, center). -/
inductive Func where
  | leaf (ev : Vec → ℚ) (pr : Vec → ℚ → Vec)
  | constant (c : ℚ)
  | sumF (functions : List Func)
  | sumScalar (function : Func) (c : ℚ)
  | scaled (function : Func) (scalar : ℚ)
  | translate (function : Func) (center : Vec)

/-- Python isinstance(self, SumFunction): SumScalarFunction subclasses
SumFunction, every other node does not. -/
def Func.isSumLike : Func → Bool
  | .sumF _ => true
  | .sumScalar _ _ => true
  | _ => false

/-- Python isinstance(self, SumFunction) and not a plain SumFunction:
recognises exactly the SumScalarFunction nodes. -/
def Func.isSumScalar : Func → Bool
  | .sumScalar _ _ => true
  | _ => false

/-- Recognises exactly the plain SumFunction nodes. -/
def Func.isSumF : Func → Bool
  | .sumF _ => true
  | _ => false

/-- The self.functions tuple of a SumFunction node. For SumScalarFunction
the constructor built it as (function, ConstantFunction(constant)); other
nodes have no such attribute and report the empty list. -/
def Func.functions : Func → List Func
  | .sumF cs => cs
  | .sumScalar f c => [f, .constant c]
  | _ => []

/-- Right operand of the + builder: another Function, or a number. -/
inductive Operand where
  | fn (f : Func)
  | num (c : ℚ)

/-- Dispatch of self + other. When self is a SumFunction (or its subclass
SumScalarFunction), SumFunction.add runs: Sum + Sum concatenates both
children lists, Sum + plain Function appends, and any other operand falls
through to the base Function.add. Otherwise Function.add runs: its first
isinstance test is against Function, so any Function operand (including a
ConstantFunction or a SumScalarFunction) produces SumFunction(self, other),
and only a plain number reaches the SumScalarFunction branch. -/
def Func.addOp (self : Func) : Operand → Func
  | .fn g =>
    if self.isSumLike then
      if g.isSumLike then .sumF (self.functions ++ g.functions)
      else .sumF (self.functions ++ [g])
    else .sumF [self, g]
  | .num c => .sumScalar self c

/-- SumFunction constructor: raises ValueError when fewer than 2 functions
are passed, otherwise stores the tuple of children. -/
def SumFunction.mk (functions : List Func) : Except String Func :=
  if functions.length < 2 then .error "At least 2 functions need to be passed"
  else .ok (.sumF functions)

mutual
/-- Value of a node at x. leaf: the user supplied evaluation. constant:
the stored constant, ignoring x. sumF: the loop ret = 0.; for f in
self.functions: ret += f(x). sumScalar: the same inherited loop over its
two children (function, ConstantFunction constant). scaled:
scalar * function(x). translate: function(x - center) (the transient
mutation of x in the source is restored before returning and does not
affect the value). -/
def Func.evaluate : Func → Vec → ℚ
  | .leaf ev _, x => ev x
  | .constant c, _ => c
  | .sumF cs, x => Func.evalLoop 0 cs x
  | .sumScalar f c, x => 0 + Func.evaluate f x + c
  | .scaled f a, x => a * Func.evaluate f x
  | .translate f b, x => Func.evaluate f (Vec.sub x b)
termination_by f _ => sizeOf f

/-- The accumulation loop of SumFunction, in child order. -/
def Func.evalLoop : ℚ → List Func → Vec → ℚ
  | ret, [], _ => ret
  | ret, f :: fs, x => Func.evalLoop (ret + Func.evaluate f x) fs x
termination_by _ fs _ => sizeOf fs
end

/-- Stateful model of node.proximal(x, tau): returns
some (state of x after the call, returned vector), or none when the node
raises NotImplementedError. leaf: external proximal, x untouched.
constant: returns x.copy(), x untouched. sumF: the base class raises
NotImplementedError. sumScalar: delegates function.proximal(x, tau).
scaled: delegates function.proximal(x, tau * scalar). translate: on the
in-place path (ip = true) x is mutated to x - center, the wrapped proximal
runs on that buffer, center is added to the result, and x.add(center)
restores x; on the allocating path x - center is a fresh buffer and x is
never touched. -/
def Func.proximal (ip : Bool) : Func → Vec → ℚ → Option (Vec × Vec)
  | .leaf _ pr, x, tau => some (x, pr x tau)
  | .constant _, x, _ => some (x, x)
  | .sumF _, _, _ => none
  | .sumScalar f _, x, tau => Func.proximal ip f x tau
  | .scaled f a, x, tau => Func.proximal ip f x (tau * a)
  | .translate f b, x, tau =>
    if ip then
      match Func.proximal ip f (Vec.sub x b) tau with
      | none => none
      | some (x2, val) => some (Vec.add x2 b, Vec.add val b)
    else
      match Func.proximal ip f (Vec.sub x b) tau with
      | none => none
      | some (_, val) => some (x, Vec.add val b)

/-- Shared skeleton of Function.proximal_conjugate and the
ScaledFunction.proximal_conjugate override, abstracted over the inner
proximal call. In-place path (ip = true): x.divide(tau, out = x), the
inner proximal runs on that buffer (tmp aliases x), then x.multiply(tau)
restores x, and val.multiply(-tau); val.add(x) builds the result from the
restored x. Allocating path: tmp = x.divide(tau) is fresh, x is never
touched, and val.multiply(-tau); val.add(x) uses the original x. Whether
an out buffer is supplied only selects where the result vector is stored
(out is a caller buffer distinct from x), so the returned pair
(state of x, result value) is the same in both branches and the out
parameter is elided from the model. -/
def pcCore (prox : Vec → Option (Vec × Vec)) (ip : Bool) (x : Vec) (tau : ℚ) :
    Option (Vec × Vec) :=
  if ip then
    match prox (Vec.div x tau) with
    | none => none
    | some (x2, val) =>
      some (Vec.mul x2 tau, Vec.add (Vec.mul val (-tau)) (Vec.mul x2 tau))
  else
    match prox (Vec.div x tau) with
    | none => none
    | some (_, val) => some (x, Vec.add (Vec.mul val (-tau)) x)

/-- The inner proximal call made by proximal_conjugate: ScaledFunction
overrides the generic method and calls
self.function.proximal(tmp, self.scalar / tau) on the wrapped function;
every other node inherits the base method, which calls
self.proximal(tmp, 1.0 / tau) on the node itself. -/
def pcProx (ip : Bool) (g : Func) (tau : ℚ) : Vec → Option (Vec × Vec) :=
  match g with
  | .scaled f a => fun tmp => Func.proximal ip f tmp (a / tau)
  | _ => fun tmp => Func.proximal ip g tmp (1 / tau)

/-- Dispatch of node.proximal_conjugate(x, tau): the shared skeleton
applied to the inner proximal call selected by the dynamic class of the
node. -/
def Func.proximal_conjugate (ip : Bool) (g : Func) (x : Vec) (tau : ℚ) :
    Option (Vec × Vec) :=
  pcCore (pcProx ip g tau) ip x tau

/-- The loop of the SumFunction.L getter: L = 0.; for f in functions:
if f.L is not None: L += f.L else: L = None; break. The argument is the
list of the L values reported by the children, in child order. -/
def sumLLoop : ℚ → List (Option ℚ) → Option ℚ
  | acc, [] => some acc
  | acc, some lf :: rest => sumLLoop (acc + lf) rest
  | _, none :: _ => none

/-- SumFunction.L getter: recomputes the sum of the children L values on
every access, stores it in self.L and returns it; the previous cached
value is never consulted. Returns (new cache, returned value). -/
def SumFunction.Lget (_cache : Option ℚ) (childLs : List (Option ℚ)) :
    Option ℚ × Option ℚ :=
  (sumLLoop 0 childLs, sumLLoop 0 childLs)

/-- The loop of the SumFunction.Lmax getter: l = []; for f in functions:
if f.L is not None: l.append(f.L) else: l = None; break. Returns the
final value of l: a list, or none standing for Python None. -/
def lmaxLoop : List ℚ → List (Option ℚ) → Option (List ℚ)
  | acc, [] => some acc
  | acc, some lf :: rest => lmaxLoop (acc ++ [lf]) rest
  | _, none :: _ => none

/-- SumFunction.Lmax getter: builds l by the loop above and then
unconditionally evaluates max(l). When the loop ended with l = None
(some child reported L = None), max(None) raises TypeError; max of an
empty list would raise ValueError (unreachable with two or more
children); otherwise the maximum is returned. -/
def SumFunction.Lmax (childLs : List (Option ℚ)) : Except String ℚ :=
  match lmaxLoop [] childLs with
  | none => .error "TypeError: NoneType object is not iterable"
  | some [] => .error "ValueError: max arg is an empty sequence"
  | some (a :: rest) => .ok (rest.foldl max a)

/-- ScaledFunction.L getter, as a function of the cached self.L and of
the current value funL reported by self.function.L: a non-None cache is
returned as is; an empty cache is filled from abs(scalar) * funL when
funL is defined, and left empty otherwise. Returns
(new cache, returned value). -/
def ScaledFunction.Lget (scalar : ℚ) (cache : Option ℚ) (funL : Option ℚ) :
    Option ℚ × Option ℚ :=
  match cache with
  | some l => (some l, some l)
  | none =>
    match funL with
    | some lf => (some (abs scalar * lf), some (abs scalar * lf))
    | none => (none, none)

/-- SumScalarFunction.L getter, same caching shape as ScaledFunction.L but
copying self.function.L unscaled. Returns (new cache, returned value). -/
def SumScalarFunction.Lget (cache : Option ℚ) (funL : Option ℚ) :
    Option ℚ × Option ℚ :=
  match cache with
  | some l => (some l, some l)
  | none =>
    match funL with
    | some lf => (some lf, some lf)
    | none => (none, none)

/-- ConstantFunction.L getter: returns 0. whatever the stored state is. -/
def ConstantFunction.Lget (_cache : Option ℚ) : ℚ := 0

/-- ConstantFunction redefines the L property with a getter only, so an
assignment to L on a ConstantFunction raises AttributeError instead of
running the base class setter. -/
def ConstantFunction.Lset (_value : ℚ) : Except String Unit :=
  .error "AttributeError: cannot set attribute"

/-- Base Function.L setter: accepts a number value >= 0 and overwrites the
stored state with it, raises TypeError otherwise (in this rational model
every value is a number, so only the sign test remains). -/
def Function.Lset (value : ℚ) (_st : Option ℚ) : Except String (Option ℚ) :=
  if 0 ≤ value then .ok (some value)
  else .error "TypeError: The Lipschitz constant is a real positive number"

/-- Concrete leaf used by the witnesses: evaluation 0, proximal the
identity map (the proximal of the zero function). -/
def wLeaf : Func := .leaf (fun _ => 0) (fun v _ => v)

/-- Concrete input vector used by the witnesses. -/
def wx : Vec := fun _ => 6

/-- Concrete center vector used by the witnesses. -/
def wb : Vec := fun _ => 2

/-!
Theorems. Helper lemmas are stated first; each claim is settled by a
single named theorem below them.
-/

/-- A plain SumFunction node passes the isinstance(_, SumFunction) test. -/
theorem isSumLike_sumF (cs : List Func) : (Func.sumF cs).isSumLike = true := rfl

/-- The children tuple of a plain SumFunction node. -/
theorem functions_sumF (cs : List Func) : (Func.sumF cs).functions = cs := rfl

/-- Subtracting and re-adding the same vector restores x. -/
theorem Vec.sub_add_cancel (x b : Vec) : Vec.add (Vec.sub x b) b = x := by
  funext i; simp [Vec.add, Vec.sub]

/-- Dividing by t and multiplying back by t restores x when t is not 0. -/
theorem Vec.div_mul_cancel (x : Vec) (t : ℚ) (ht : t ≠ 0) :
    Vec.mul (Vec.div x t) t = x := by
  funext i; simp [Vec.mul, Vec.div]; field_simp

/-- Strong induction core of the restoration property of proximal. -/
theorem proximal_fst_aux (ip : Bool) :
    ∀ (n : ℕ) (f : Func), sizeOf f ≤ n →
    ∀ (x : Vec) (tau : ℚ) (p : Vec × Vec), Func.proximal ip f x tau = some p → p.1 = x := by
  intro n
  induction n with
  | zero =>
    intro f hf
    cases f <;> simp at hf
  | succ n ih =>
    intro f hf x tau p h
    cases f with
    | leaf ev pr => simp [Func.proximal] at h; rw [← h]
    | constant c => simp [Func.proximal] at h; rw [← h]
    | sumF cs => simp [Func.proximal] at h
    | sumScalar f c =>
      have hsz : sizeOf f ≤ n := by simp at hf; omega
      exact ih f hsz x tau p h
    | scaled f a =>
      have hsz : sizeOf f ≤ n := by simp at hf; omega
      exact ih f hsz x _ p h
    | translate f b =>
      have hsz : sizeOf f ≤ n := by simp at hf; omega
      cases ip with
      | true =>
        simp only [Func.proximal, if_pos] at h
        cases hc : Func.proximal true f (Vec.sub x b) tau with
        | none => rw [hc] at h; simp at h
        | some q =>
          rw [hc] at h
          obtain ⟨x2, val⟩ := q
          simp at h
          have hx2 := ih f hsz (Vec.sub x b) tau (x2, val) hc
          simp at hx2
          rw [← h]
          show Vec.add x2 b = x
          rw [hx2, Vec.sub_add_cancel]
      | false =>
        simp only [Func.proximal, Bool.false_eq_true, if_neg] at h
        cases hc : Func.proximal false f (Vec.sub x b) tau with
        | none => rw [hc] at h; simp at h
        | some q =>
          rw [hc] at h
          obtain ⟨x2, val⟩ := q
          simp at h
          rw [← h]

/-- Every successful call of the (stateful model of) proximal restores
the caller-owned x, on both the in-place and the allocating path. -/
theorem proximal_fst (ip : Bool) (f : Func) (x : Vec) (tau : ℚ) (p : Vec × Vec)
    (h : Func.proximal ip f x tau = some p) : p.1 = x :=
  proximal_fst_aux ip (sizeOf f) f le_rfl x tau p h

/-- The skeleton of proximal_conjugate restores x whenever the inner
proximal call restores its own argument and tau is not 0. -/
theorem pcCore_fst (prox : Vec → Option (Vec × Vec))
    (hprox : ∀ y q, prox y = some q → q.1 = y) (ip : Bool) (x : Vec) (tau : ℚ)
    (ht : tau ≠ 0) (p : Vec × Vec) (h : pcCore prox ip x tau = some p) : p.1 = x := by
  cases ip with
  | true =>
    simp only [pcCore, if_pos] at h
    cases hc : prox (Vec.div x tau) with
    | none => rw [hc] at h; simp at h
    | some q =>
      rw [hc] at h
      obtain ⟨x2, val⟩ := q
      simp at h
      have hx2 : x2 = Vec.div x tau := hprox _ _ hc
      rw [← h]
      show Vec.mul x2 tau = x
      rw [hx2, Vec.div_mul_cancel x tau ht]
  | false =>
    simp only [pcCore, Bool.false_eq_true, if_neg] at h
    cases hc : prox (Vec.div x tau) with
    | none => rw [hc] at h; simp at h
    | some q =>
      rw [hc] at h
      obtain ⟨x2, val⟩ := q
      simp at h
      rw [← h]

/-- The skeleton of proximal_conjugate computes
x - tau * (value of the inner proximal at x / tau), with x restored. -/
theorem pcCore_eq (prox : Vec → Option (Vec × Vec))
    (hprox : ∀ y q, prox y = some q → q.1 = y) (ip : Bool) (x : Vec) (tau : ℚ)
    (ht : tau ≠ 0) (x2 val : Vec) (h : prox (Vec.div x tau) = some (x2, val)) :
    pcCore prox ip x tau = some (x, Vec.sub x (Vec.mul val tau)) := by
  have hcomb : Vec.add (Vec.mul val (-tau)) x = Vec.sub x (Vec.mul val tau) := by
    funext i; simp [Vec.add, Vec.mul, Vec.sub]; ring
  have hx2 : x2 = Vec.div x tau := hprox _ _ h
  cases ip with
  | true =>
    simp only [pcCore, if_pos, h]
    rw [hx2, Vec.div_mul_cancel x tau ht, hcomb]
  | false =>
    simp only [pcCore, Bool.false_eq_true, if_neg, h]
    rw [hcomb]
    simp

/-- The inner proximal call of proximal_conjugate restores its argument,
whichever class the node has. -/
theorem pcProx_fst (ip : Bool) (g : Func) (tau : ℚ) (y : Vec) (q : Vec × Vec)
    (h : pcProx ip g tau y = some q) : q.1 = y := by
  cases g with
  | scaled f a => exact proximal_fst ip f y (a / tau) q h
  | leaf ev pr => exact proximal_fst ip _ y _ q h
  | constant c => exact proximal_fst ip _ y _ q h
  | sumF cs => exact proximal_fst ip _ y _ q h
  | sumScalar f c => exact proximal_fst ip _ y _ q h
  | translate f b => exact proximal_fst ip _ y _ q h

/-- The inner proximal call of proximal_conjugate computes the same value
as the dispatched node.proximal(y, 1 / tau): immediate for every node
inheriting the generic method, and an exact-arithmetic identity
(1 / tau) * scalar = scalar / tau for the ScaledFunction override. -/
theorem pcProx_eq_proximal (ip : Bool) (g : Func) (tau : ℚ) (y : Vec) :
    pcProx ip g tau y = Func.proximal ip g y (1 / tau) := by
  cases g with
  | scaled f a =>
    show Func.proximal ip f y (a / tau) = Func.proximal ip f y ((1 / tau) * a)
    rw [show (1 / tau) * a = a / tau by ring]
  | leaf ev pr => rfl
  | constant c => rfl
  | sumF cs => rfl
  | sumScalar f c => rfl
  | translate f b => rfl

/-- C1: for every node implementing proximal, every x and every tau > 0,
proximal_conjugate (generic or the ScaledFunction override, in-place or
allocating path, with or without an out buffer) returns with the argument
x numerically equal to its value before the call. -/
theorem proximal_conjugate_leaves_x_unchanged (ip : Bool) (g : Func) (x : Vec)
    (tau : ℚ) (htau : 0 < tau) (p : Vec × Vec)
    (h : Func.proximal_conjugate ip g x tau = some p) : p.1 = x :=
  pcCore_fst (pcProx ip g tau) (fun y q hq => pcProx_fst ip g tau y q hq) ip x tau
    (ne_of_gt htau) p h

/-- Witness for C1 at the identity-proximal leaf, x = wx, tau = 2, on the
in-place path. -/
theorem proximal_conjugate_leaves_x_unchanged_witness :
    (0 : ℚ) < 2 ∧ Vec.mul (Vec.div wx 2) 2 = wx :=
  ⟨by norm_num,
   proximal_conjugate_leaves_x_unchanged true wLeaf wx 2 (by norm_num)
     (Vec.mul (Vec.div wx 2) 2,
      Vec.add (Vec.mul (Vec.div wx 2) (-2)) (Vec.mul (Vec.div wx 2) 2)) rfl⟩

/-- C2: the generic proximal_conjugate satisfies the Moreau identity:
its value is x - tau * proximal(x / tau, 1 / tau), equivalently adding
tau * proximal(x / tau, 1 / tau) back gives x; for a ScaledFunction node
the overridden method computes the same value because its inner call
function.proximal(tmp, scalar / tau) equals the dispatched
self.proximal(tmp, 1 / tau). -/
theorem proximal_conjugate_moreau (ip : Bool) (g : Func) (x x2 val : Vec)
    (tau : ℚ) (htau : 0 < tau)
    (h : Func.proximal ip g (Vec.div x tau) (1 / tau) = some (x2, val)) :
    Func.proximal_conjugate ip g x tau = some (x, Vec.sub x (Vec.mul val tau)) ∧
    Vec.add (Vec.sub x (Vec.mul val tau)) (Vec.mul val tau) = x := by
  have ht : tau ≠ 0 := ne_of_gt htau
  constructor
  · have h2 : pcProx ip g tau (Vec.div x tau) = some (x2, val) := by
      rw [pcProx_eq_proximal]; exact h
    exact pcCore_eq (pcProx ip g tau) (fun y q hq => pcProx_fst ip g tau y q hq)
      ip x tau ht x2 val h2
  · funext i; simp [Vec.add, Vec.sub, Vec.mul]

/-- Witness for C2 at the identity-proximal leaf, x = wx, tau = 2, on the
in-place path. -/
theorem proximal_conjugate_moreau_witness :
    (0 : ℚ) < 2 ∧
    (Func.proximal_conjugate true wLeaf wx 2 =
       some (wx, Vec.sub wx (Vec.mul (Vec.div wx 2) 2)) ∧
     Vec.add (Vec.sub wx (Vec.mul (Vec.div wx 2) 2)) (Vec.mul (Vec.div wx 2) 2) = wx) :=
  ⟨by norm_num,
   proximal_conjugate_moreau true wLeaf wx (Vec.div wx 2) (Vec.div wx 2) 2 (by norm_num) rfl⟩

/-- C3 fails as stated: grouping as f + (g + h) with a plain left operand
goes through the base Function addition, which wraps the already built
Sum(g, h) as a second child instead of flattening it: the result is a Sum
with 2 children, the second being a nested Sum. Shown here at
f = ConstantFunction 1, g = ConstantFunction 2, h = ConstantFunction 3. -/
theorem sum_assoc_flattening_cex :
    ((Func.constant 1).addOp
        (.fn ((Func.constant 2).addOp (.fn (Func.constant 3))))).functions.length ≠ 3 ∧
    (Func.constant 1).addOp (.fn ((Func.constant 2).addOp (.fn (Func.constant 3)))) =
      .sumF [.constant 1, .sumF [.constant 2, .constant 3]] :=
  ⟨by decide, rfl⟩

/-- C3 amended: for plain (non-Sum) nodes f, g, h, the grouping
(f + g) + h yields a flat Sum with exactly the 3 children [f, g, h] in
insertion order, while f + (g + h) yields a Sum with 2 children whose
second child is the nested Sum(g, h); both groupings evaluate to the same
value on every input x. -/
theorem sum_assoc_flattening_amended (f g h : Func) (hf : f.isSumLike = false)
    (hg : g.isSumLike = false) (hh : h.isSumLike = false) (x : Vec) :
    (f.addOp (.fn g)).addOp (.fn h) = .sumF [f, g, h] ∧
    f.addOp (.fn (g.addOp (.fn h))) = .sumF [f, .sumF [g, h]] ∧
    Func.evaluate ((f.addOp (.fn g)).addOp (.fn h)) x =
      Func.evaluate (f.addOp (.fn (g.addOp (.fn h)))) x := by
  have h1 : f.addOp (.fn g) = .sumF [f, g] := by simp [Func.addOp, hf]
  have h2 : g.addOp (.fn h) = .sumF [g, h] := by simp [Func.addOp, hg]
  have h3 : (Func.sumF [f, g]).addOp (.fn h) = .sumF [f, g, h] := by
    simp [Func.addOp, isSumLike_sumF, hh, functions_sumF]
  have h4 : f.addOp (.fn (.sumF [g, h])) = .sumF [f, .sumF [g, h]] := by
    simp [Func.addOp, hf]
  refine ⟨by rw [h1, h3], by rw [h2, h4], ?_⟩
  rw [h1, h3, h2, h4]
  simp [Func.evaluate, Func.evalLoop]
  ring

/-- Witness for the amended C3 at three ConstantFunction leaves and
x = wx. -/
theorem sum_assoc_flattening_amended_witness :
    ((Func.constant 1).addOp (.fn (Func.constant 2))).addOp (.fn (Func.constant 3)) =
      .sumF [.constant 1, .constant 2, .constant 3] ∧
    (Func.constant 1).addOp (.fn ((Func.constant 2).addOp (.fn (Func.constant 3)))) =
      .sumF [.constant 1, .sumF [.constant 2, .constant 3]] ∧
    Func.evaluate
        (((Func.constant 1).addOp (.fn (Func.constant 2))).addOp (.fn (Func.constant 3))) wx =
      Func.evaluate
        ((Func.constant 1).addOp (.fn ((Func.constant 2).addOp (.fn (Func.constant 3))))) wx :=
  sum_assoc_flattening_amended (.constant 1) (.constant 2) (.constant 3) rfl rfl rfl wx

/-- C4 fails as stated for a ConstantFunction operand: the first
isinstance test of the base addition is against Function, which a
ConstantFunction passes, so F + ConstantFunction(5) builds a SumFunction,
not a SumScalarFunction (the comments of the module self-test record the
same: sum function and constant is a SumFunction). -/
theorem add_constant_dispatch_cex :
    (wLeaf.addOp (.fn (.constant 5))).isSumScalar = false ∧
    wLeaf.addOp (.fn (.constant 5)) = .sumF [wLeaf, .constant 5] :=
  ⟨rfl, rfl⟩

/-- C4 amended: for a plain (non-Sum) node F, adding any Function operand
(a ConstantFunction included) yields a Sum with children [F, other], and
only adding a plain number yields a SumScalar. -/
theorem add_dispatch_amended (F g : Func) (c : ℚ) (hF : F.isSumLike = false) :
    F.addOp (.fn g) = .sumF [F, g] ∧ F.addOp (.num c) = .sumScalar F c := by
  constructor
  · simp [Func.addOp, hF]
  · rfl

/-- Witness for the amended C4 at F = wLeaf, other = ConstantFunction 5
and the number 7. -/
theorem add_dispatch_amended_witness :
    wLeaf.addOp (.fn (.constant 5)) = .sumF [wLeaf, .constant 5] ∧
    wLeaf.addOp (.num 7) = .sumScalar wLeaf 7 :=
  add_dispatch_amended wLeaf (.constant 5) 7 rfl

/-- C5: the code contradicts the None-propagation rule claimed for Lmax.
On a SumFunction whose first child reports L = None and whose second
reports L = 1, the loop sets l = None and the unconditional max(l) raises
TypeError instead of returning None; when every child reports a defined
L, the maximum is returned as claimed. -/
theorem sumFunction_Lmax_failing_input :
    SumFunction.Lmax [Option.none, some 1] =
      .error "TypeError: NoneType object is not iterable" ∧
    SumFunction.Lmax [some 2, some 5] = .ok 5 := by
  constructor
  · rfl
  · simp [SumFunction.Lmax, lmaxLoop]
    norm_num

/-- C6: constructing a SumFunction with fewer than 2 children raises
ValueError (the InvalidArgument error of the design taxonomy), and
construction with 2 or more children succeeds and stores the children. -/
theorem sumFunction_init_arity (fs : List Func) :
    (fs.length < 2 → SumFunction.mk fs = .error "At least 2 functions need to be passed") ∧
    (2 ≤ fs.length → SumFunction.mk fs = .ok (.sumF fs)) := by
  constructor
  · intro hlt
    simp [SumFunction.mk, hlt]
  · intro hge
    have hnlt : ¬ fs.length < 2 := not_lt.mpr hge
    simp [SumFunction.mk, hnlt]

/-- Witness for C6 at the empty list and at a 2-element list. -/
theorem sumFunction_init_arity_witness :
    SumFunction.mk [] = .error "At least 2 functions need to be passed" ∧
    SumFunction.mk [Func.constant 0, Func.constant 1] =
      .ok (.sumF [Func.constant 0, Func.constant 1]) :=
  ⟨(sumFunction_init_arity []).1 (by decide),
   (sumFunction_init_arity [Func.constant 0, Func.constant 1]).2 (by decide)⟩

/-- C7: ScaledFunction.proximal delegates to the wrapped function with
the scaled step: proximal of scaled(F, a) at (x, tau) is
F.proximal(x, tau * a), including the state of x, on both paths. -/
theorem scaledFunction_proximal_scales_tau (ip : Bool) (f : Func) (a : ℚ)
    (x : Vec) (tau : ℚ) (_ha : 0 < a) (_htau : 0 < tau) :
    Func.proximal ip (.scaled f a) x tau = Func.proximal ip f x (tau * a) := rfl

/-- Witness for C7 at f = wLeaf, a = 1, x = wx, tau = 2 on the in-place
path. -/
theorem scaledFunction_proximal_scales_tau_witness :
    (0 : ℚ) < 1 ∧ (0 : ℚ) < 2 ∧
    Func.proximal true (.scaled wLeaf 1) wx 2 = Func.proximal true wLeaf wx (2 * 1) :=
  ⟨by norm_num, by norm_num,
   scaledFunction_proximal_scales_tau true wLeaf 1 wx 2 (by norm_num) (by norm_num)⟩

/-- C8: TranslateFunction.proximal returns F.proximal(x - b, tau) + b,
and returns with the caller-owned x restored, on both the in-place and
the allocating path. -/
theorem translateFunction_proximal_shift (ip : Bool) (f : Func) (b x x2 val : Vec)
    (tau : ℚ) (_htau : 0 < tau)
    (h : Func.proximal ip f (Vec.sub x b) tau = some (x2, val)) :
    Func.proximal ip (.translate f b) x tau = some (x, Vec.add val b) := by
  have hx2 : x2 = Vec.sub x b := by
    have hfst := proximal_fst ip f (Vec.sub x b) tau (x2, val) h
    simpa using hfst
  cases ip with
  | true =>
    simp only [Func.proximal, if_pos, h]
    rw [hx2, Vec.sub_add_cancel]
  | false =>
    simp only [Func.proximal, Bool.false_eq_true, if_neg, h]
    simp

/-- Witness for C8 at f = wLeaf, center = wb, x = wx, tau = 2 on the
in-place path. -/
theorem translateFunction_proximal_shift_witness :
    (0 : ℚ) < 2 ∧
    Func.proximal true (.translate wLeaf wb) wx 2 =
      some (wx, Vec.add (Vec.sub wx wb) wb) :=
  ⟨by norm_num,
   translateFunction_proximal_shift true wLeaf wb wx (Vec.sub wx wb) (Vec.sub wx wb) 2
     (by norm_num) rfl⟩

/-- C9: the L getters of ScaledFunction and SumScalarFunction derive from
the wrapped function only when the cache is empty, caching a non-None
result: once a non-None value has been returned, every later read returns
the cached value whatever the wrapped function now reports (and a None
derivation leaves the cache empty); the SumFunction getter, in contrast,
ignores the cache and recomputes from the children on every access. -/
theorem composite_L_caching (a l0 v : ℚ) (funL funL2 : Option ℚ)
    (c c2 : Option ℚ) (ls : List (Option ℚ)) :
    ScaledFunction.Lget a none (some l0) = (some (abs a * l0), some (abs a * l0)) ∧
    ScaledFunction.Lget a (some v) funL = (some v, some v) ∧
    ScaledFunction.Lget a none none = (none, none) ∧
    SumScalarFunction.Lget none (some l0) = (some l0, some l0) ∧
    SumScalarFunction.Lget (some v) funL2 = (some v, some v) ∧
    SumScalarFunction.Lget none none = (none, none) ∧
    SumFunction.Lget c ls = SumFunction.Lget c2 ls :=
  ⟨rfl, rfl, rfl, rfl, rfl, rfl, rfl⟩

/-- C10: reading L on a ConstantFunction returns exactly 0 whatever the
stored state is, assigning L on a ConstantFunction fails (the property is
redefined with a getter only), and the base Function setter accepts any
non-negative number. -/
theorem constantFunction_L_immutable (st : Option ℚ) (v w : ℚ) :
    ConstantFunction.Lget st = 0 ∧
    ConstantFunction.Lset v = .error "AttributeError: cannot set attribute" ∧
    (0 ≤ w → Function.Lset w st = .ok (some w)) := by
  refine ⟨rfl, rfl, fun hw => ?_⟩
  simp [Function.Lset, hw]

/-- Witness for C10 at state None, attempted value 5 and base value 3. -/
theorem constantFunction_L_immutable_witness :
    ConstantFunction.Lget none = 0 ∧
    ConstantFunction.Lset 5 = .error "AttributeError: cannot set attribute" ∧
    Function.Lset 3 none = .ok (some 3) :=
  ⟨(constantFunction_L_immutable none 5 3).1,
   (constantFunction_L_immutable none 5 3).2.1,
   (constantFunction_L_immutable none 5 3).2.2 (by norm_num)⟩

end CIL
